import Mathlib

/-!
Verification of the conversation-orchestration layer of the skye-bot
repository.  The TypeScript sources are embedded shallowly: the
module-level mutable `Map`s become total functions with the same
defaulting behaviour as the JS code (`get(k) ?? d`), numbers become
`Int`/`Nat`, and external effects (the LLM backend, `Date.now()`,
`Math.random()` based id generation, `JSON.parse`) become explicit
parameters or small executable models.  Disk persistence (`persist()`)
only mirrors the in-memory maps and is not modelled.
-/

set_option autoImplicit false

namespace Skye

/-! ### contextBuilder.ts -/

/-- Embedding of `buildContext` (contextBuilder.ts).  The source computes
`start = Math.max(0, messages.length - 20)` and returns
`messages.slice(start)`; truncated `Nat` subtraction is exactly the
`Math.max(0, _)` clamp. -/
def buildContext {α : Type} (messages : List α) : List α :=
  let start := messages.length - 20
  messages.drop start

/-! ### chatLog.ts -/

def MAX_BUFFER : Nat := 50
def RECENT_COUNT : Nat := 20
def SUMMARIZE_INTERVAL : Nat := 10

/-- Embedding of the `LogEntry` interface (chatLog.ts). -/
structure LogEntry where
  sender : String
  timestamp : String
  type : String
  content : String
  replyTo : Option String
deriving DecidableEq, Repr

/-- The module-level maps of chatLog.ts (`logs`, `counters`, `summaries`,
`chatTitles`), as total functions.  An absent key of the `logs` map is
read as `[]` by every accessor (`logs.get(chatId)` guarded by `if (!buf)`
or `?? 0`), so the function-valued model uses those defaults directly. -/
structure ChatLogState where
  logs : Int → List LogEntry
  counters : Int → Nat
  summaries : Int → Option String
  chatTitles : Int → Option String

/-- Embedding of `getOlderEntries` (chatLog.ts): everything before the
last `RECENT_COUNT` buffered entries.  `Math.max(0, buf.length -
RECENT_COUNT)` is truncated subtraction; `buf.slice(0, cutoff)` is
`take cutoff`. -/
def getOlderEntries (st : ChatLogState) (chatId : Int) : List LogEntry :=
  let buf := st.logs chatId
  let cutoff := buf.length - RECENT_COUNT
  buf.take cutoff

/-- Embedding of `setSummary` (chatLog.ts): store the summary and reset
the per-chat counter to zero. -/
def setSummary (st : ChatLogState) (chatId : Int) (summary : String) : ChatLogState :=
  { st with
    summaries := fun c => if c = chatId then some summary else st.summaries c
    counters := fun c => if c = chatId then 0 else st.counters c }

/-- Embedding of `summarizeChat` (chatLog.ts).  The `askSkye` backend
call is an explicit parameter `llm`: `.error e` is a rejected promise
(caught by the `catch` block), `.ok content` is a resolved call whose
first choice has message content `content` (`none` models a missing
field).  The JS truthiness test `if (text)` admits exactly
`some t` with `t ≠ ""`. -/
def summarizeChat (llm : Except String (Option String)) (st : ChatLogState)
    (chatId : Int) : ChatLogState :=
  let older := getOlderEntries st chatId
  if older.isEmpty then
    { st with counters := fun c => if c = chatId then 0 else st.counters c }
  else
    match llm with
    | .ok content =>
        match content with
        | some text => if text ≠ "" then setSummary st chatId text else st
        | none => st
    | .error _ =>
        { st with counters := fun c => if c = chatId then 0 else st.counters c }

/-! ### index.ts : rate limiter -/

/-- Embedding of `canRespond` (index.ts).  The module-level `lastCall`
map is the function argument; the result pairs the returned boolean with
the map after the call.  `lastCall.get(key) ?? 0` is `(m key).getD 0`. -/
def canRespond (now : Int) (lastCall : String → Option Int) (key : String) :
    Bool × (String → Option Int) :=
  let prev := (lastCall key).getD 0
  if now - prev < 2000 then (false, lastCall)
  else (true, fun k => if k = key then some now else lastCall k)

end Skye

namespace Skye

/-! ## Claim C3 : buildContext window -/

/-- C3: `buildContext` returns at most 20 messages, and exactly the
suffix of the input made of its most recent `min 20 len` elements, the
rest of the input being the dropped older part; when the input has at
most 20 elements it is returned whole. -/
theorem buildContext_is_bounded_suffix {α : Type} (messages : List α) :
    (buildContext messages).length = min messages.length 20 ∧
    messages = messages.take (messages.length - 20) ++ buildContext messages ∧
    (messages.length ≤ 20 → buildContext messages = messages) := by
  refine ⟨?_, ?_, ?_⟩
  · simp [buildContext]
    omega
  · simp [buildContext]
  · intro h
    simp [buildContext, Nat.sub_eq_zero_of_le h]

/-- Witness for C3 at a concrete input: a 7-element history is returned
whole. -/
theorem buildContext_is_bounded_suffix_witness :
    buildContext (List.range 7) = List.range 7 :=
  (buildContext_is_bounded_suffix (List.range 7)).2.2 (by decide)

/-! ## Claim C7 : getOlderEntries -/

/-- C7: `getOlderEntries` returns exactly the first `n - RECENT_COUNT`
buffered entries (truncated at 0): its length is `n - 20`, the buffer
splits as the returned prefix followed by a recent tail of length
`min 20 n`, with 25 buffered entries exactly 5 are returned, and with 20
or fewer none are. -/
theorem getOlderEntries_excludes_recent_tail (st : ChatLogState) (chatId : Int) :
    (getOlderEntries st chatId).length = (st.logs chatId).length - RECENT_COUNT ∧
    (∃ recent : List LogEntry,
      st.logs chatId = getOlderEntries st chatId ++ recent ∧
      recent.length = min RECENT_COUNT (st.logs chatId).length) ∧
    ((st.logs chatId).length = 25 → (getOlderEntries st chatId).length = 5) ∧
    ((st.logs chatId).length ≤ 20 → getOlderEntries st chatId = []) := by
  refine ⟨?_, ?_, ?_, ?_⟩
  · simp [getOlderEntries, RECENT_COUNT]
  · refine ⟨(st.logs chatId).drop ((st.logs chatId).length - RECENT_COUNT), ?_, ?_⟩
    · simp [getOlderEntries]
    · simp [RECENT_COUNT]
      omega
  · intro h
    simp [getOlderEntries, RECENT_COUNT, h]
  · intro h
    simp [getOlderEntries, RECENT_COUNT, Nat.sub_eq_zero_of_le h]

/-- A concrete chat-log state with 25 buffered entries for chat 1. -/
def logEntryA : LogEntry :=
  { sender := "alice", timestamp := "2024-01-01T00:00:00Z", type := "text"
    content := "hi", replyTo := none }

def chatLogState25 : ChatLogState :=
  { logs := fun c => if c = 1 then List.replicate 25 logEntryA else []
    counters := fun _ => 0
    summaries := fun _ => none
    chatTitles := fun _ => none }

/-- Witness for C7: with 25 buffered entries exactly 5 are returned. -/
theorem getOlderEntries_excludes_recent_tail_witness :
    (getOlderEntries chatLogState25 1).length = 5 :=
  (getOlderEntries_excludes_recent_tail chatLogState25 1).2.2.1 (by decide)

/-! ## Claim C6 : rate limiter cooldown -/

/-- Helper: the denied branch of `canRespond`. -/
theorem canRespond_denied (now : Int) (m : String → Option Int) (key : String)
    (h : now - (m key).getD 0 < 2000) : canRespond now m key = (false, m) := by
  simp only [canRespond]
  rw [if_pos h]

/-- Helper: the admitting branch of `canRespond`. -/
theorem canRespond_admitted (now : Int) (m : String → Option Int) (key : String)
    (h : ¬ now - (m key).getD 0 < 2000) :
    canRespond now m key = (true, fun k => if k = key then some now else m k) := by
  simp only [canRespond]
  rw [if_neg h]

/-- C6: for a key with no recorded call, a call at a realistic clock
value is admitted; an immediate repeat strictly under 2000 ms later is
denied; a repeat at least 2000 ms after the admitted call is admitted
again. -/
theorem canRespond_cooldown_window (lastCall : String → Option Int) (key : String)
    (t0 t1 t2 : Int) (hfresh : lastCall key = none) (h0 : 2000 ≤ t0)
    (h1 : t1 - t0 < 2000) (h2 : 2000 ≤ t2 - t0) :
    (canRespond t0 lastCall key).fst = true ∧
    (canRespond t1 (canRespond t0 lastCall key).snd key).fst = false ∧
    (canRespond t2 (canRespond t0 lastCall key).snd key).fst = true := by
  have hfirstOk : canRespond t0 lastCall key =
      (true, fun k => if k = key then some t0 else lastCall k) :=
    canRespond_admitted t0 lastCall key (by rw [hfresh]; simp only [Option.getD_none]; omega)
  refine ⟨by rw [hfirstOk], ?_, ?_⟩
  · rw [hfirstOk, canRespond_denied t1 _ key (by simp; omega)]
  · rw [hfirstOk, canRespond_admitted t2 _ key (by simp; omega)]

/-- Witness for C6 at concrete times: admitted at t=100000, denied at
t=101999, admitted again at t=102000. -/
theorem canRespond_cooldown_window_witness :
    (canRespond 100000 (fun _ => none) "42").fst = true ∧
    (canRespond 101999 (canRespond 100000 (fun _ => none) "42").snd "42").fst = false ∧
    (canRespond 102000 (canRespond 100000 (fun _ => none) "42").snd "42").fst = true :=
  canRespond_cooldown_window (fun _ => none) "42" 100000 101999 102000 rfl
    (by decide) (by decide) (by decide)

/-! ## Claim C10 : rate limiter frame -/

/-- C10: a denied `canRespond` call leaves the last-call map completely
unchanged; an admitting call updates exactly the queried key to the
current time and no other key. -/
theorem canRespond_frame (now : Int) (lastCall : String → Option Int) (key : String) :
    ((canRespond now lastCall key).fst = false →
      (canRespond now lastCall key).snd = lastCall) ∧
    ((canRespond now lastCall key).fst = true →
      (canRespond now lastCall key).snd =
        fun k => if k = key then some now else lastCall k) := by
  simp only [canRespond]
  split <;> simp

/-- Witness for C10: a concrete denied call (previous stamp 0, now 100)
leaves the map unchanged. -/
theorem canRespond_frame_witness :
    (canRespond 100 (fun _ => some 0) "42").snd = (fun _ => some 0) :=
  (canRespond_frame 100 (fun _ => some 0) "42").1 rfl

/-! ### index.ts : sanitizeContext

A Chat Completion message as handled by `sanitizeContext`: its `content`
is either a plain string or an array of parts, each part an object with
a `type` tag and optional `text` / `image_url` fields. -/

structure ContentPart where
  ptype : String
  text : Option String
  image_url : Option String
deriving DecidableEq, Repr, Inhabited

inductive MsgContent where
  | str (s : String)
  | parts (ps : List ContentPart)
deriving DecidableEq, Repr

structure ChatMsg where
  role : String
  content : MsgContent
deriving DecidableEq, Repr

/-- JS truthiness of `textParts[0].text`: a present, non-empty string. -/
def partTextTruthy (p : ContentPart) : Bool :=
  match p.text with
  | some t => t ≠ ""
  | none => false

/-- Embedding of the per-message body of `sanitizeContext` (index.ts):
non-array content is passed through; otherwise `image_url` parts are
filtered out and the remainder collapses to `"[image]"` (none left), to
the single part's text (exactly one left, with truthy `text`), or to the
filtered part list. -/
def sanitizeMsg (m : ChatMsg) : ChatMsg :=
  match m.content with
  | .str _ => m
  | .parts ps =>
    let textParts := ps.filter (fun p => p.ptype ≠ "image_url")
    if textParts.length = 0 then { m with content := .str "[image]" }
    else if textParts.length = 1 ∧ partTextTruthy textParts.headI then
      { m with content := .str ((textParts.headI.text).getD "") }
    else { m with content := .parts textParts }

/-- Embedding of `sanitizeContext` (index.ts).  The cached
`modelSupportsImages()` tri-state flag is the explicit parameter
`supportsImages`; the source checks `!== false`. -/
def sanitizeContext (supportsImages : Option Bool) (messages : List ChatMsg) :
    List ChatMsg :=
  if supportsImages ≠ some false then messages
  else messages.map sanitizeMsg

/-! ## Claim C8 : sanitizeContext idempotent -/

/-- Helper: a message whose content is an already-filtered part list that
does not collapse to a string is a fixed point of `sanitizeMsg`. -/
theorem sanitize_parts_stable (role : String) (l : List ContentPart)
    (hl : ∀ p ∈ l, p.ptype ≠ "image_url") (hne : ¬ l.length = 0)
    (hnot : ¬ (l.length = 1 ∧ partTextTruthy l.headI)) :
    sanitizeMsg ⟨role, MsgContent.parts l⟩ = ⟨role, MsgContent.parts l⟩ := by
  have hfilter : l.filter (fun p => p.ptype ≠ "image_url") = l := by
    rw [List.filter_eq_self]
    intro p hp
    simpa using hl p hp
  simp only [sanitizeMsg]
  rw [hfilter, if_neg hne, if_neg hnot]

/-- Helper: `sanitizeMsg` is idempotent on every single message. -/
theorem sanitizeMsg_idem (m : ChatMsg) : sanitizeMsg (sanitizeMsg m) = sanitizeMsg m := by
  obtain ⟨role, content⟩ := m
  rcases content with s | ps
  · rfl
  · have hl : ∀ p ∈ ps.filter (fun p => p.ptype ≠ "image_url"), p.ptype ≠ "image_url" := by
      intro p hp
      have := List.of_mem_filter hp
      simpa using this
    by_cases h0 : (ps.filter (fun p => p.ptype ≠ "image_url")).length = 0
    · have hfirst : sanitizeMsg ⟨role, MsgContent.parts ps⟩ =
          ⟨role, MsgContent.str "[image]"⟩ := by
        simp only [sanitizeMsg]
        rw [if_pos h0]
      rw [hfirst]
      rfl
    · by_cases h2 : (ps.filter (fun p => p.ptype ≠ "image_url")).length = 1 ∧
          partTextTruthy (ps.filter (fun p => p.ptype ≠ "image_url")).headI
      · have hfirst : sanitizeMsg ⟨role, MsgContent.parts ps⟩ =
            ⟨role, MsgContent.str
              (((ps.filter (fun p => p.ptype ≠ "image_url")).headI).text.getD "")⟩ := by
          simp only [sanitizeMsg]
          rw [if_neg h0, if_pos h2]
        rw [hfirst]
        rfl
      · have hfirst : sanitizeMsg ⟨role, MsgContent.parts ps⟩ =
            ⟨role, MsgContent.parts (ps.filter (fun p => p.ptype ≠ "image_url"))⟩ := by
          simp only [sanitizeMsg]
          rw [if_neg h0, if_neg h2]
        rw [hfirst]
        exact sanitize_parts_stable role _ hl h0 h2

/-- C8: `sanitizeContext` is idempotent — applying it to its own output
(under the same cached capability flag) returns that output unchanged,
for string as well as multi-part message content. -/
theorem sanitizeContext_idempotent (supportsImages : Option Bool)
    (messages : List ChatMsg) :
    sanitizeContext supportsImages (sanitizeContext supportsImages messages) =
      sanitizeContext supportsImages messages := by
  by_cases h : supportsImages ≠ some false
  · simp only [sanitizeContext, if_pos h]
  · simp only [sanitizeContext, if_neg h]
    rw [List.map_map]
    exact List.map_congr_left (fun a _ => sanitizeMsg_idem a)

/-! ## Claim C4 : summarizeChat counter reset -/

/-- C4 (amended): after `summarizeChat` the per-chat counter is zero when
the LLM call fails, when there was nothing to summarize, or when the
call succeeds with non-empty content (which also replaces the stored
summary); but a successful call returning empty or missing content
leaves the whole state — counter included — unchanged. -/
theorem summarizeChat_counter_reset (llm : Except String (Option String))
    (st : ChatLogState) (chatId : Int) :
    (∀ e : String, llm = .error e →
      (summarizeChat llm st chatId).counters chatId = 0) ∧
    (getOlderEntries st chatId = [] →
      (summarizeChat llm st chatId).counters chatId = 0) ∧
    (∀ text : String, getOlderEntries st chatId ≠ [] → llm = .ok (some text) →
      text ≠ "" →
      (summarizeChat llm st chatId).counters chatId = 0 ∧
      (summarizeChat llm st chatId).summaries chatId = some text) ∧
    (getOlderEntries st chatId ≠ [] → (llm = .ok none ∨ llm = .ok (some "")) →
      summarizeChat llm st chatId = st) := by
  by_cases hold : (getOlderEntries st chatId).isEmpty
  · have h0 : (summarizeChat llm st chatId).counters chatId = 0 := by
      simp [summarizeChat, hold]
    have hnil : getOlderEntries st chatId = [] := List.isEmpty_iff.mp hold
    exact ⟨fun _ _ => h0, fun _ => h0,
      fun _ hne _ _ => absurd hnil hne, fun hne _ => absurd hnil hne⟩
  · rcases llm with e | content
    · refine ⟨fun _ _ => ?_, fun h => absurd (List.isEmpty_iff.mpr h) hold, ?_, ?_⟩
      · simp [summarizeChat, hold]
      · intro text _ heq
        exact absurd heq (by simp)
      · intro _ h
        rcases h with h | h <;> exact absurd h (by simp)
    · rcases content with _ | t
      · refine ⟨fun _ h => absurd h (by simp), fun h => absurd (List.isEmpty_iff.mpr h) hold, ?_, ?_⟩
        · intro text _ heq
          exact absurd heq (by simp)
        · intro _ _
          simp [summarizeChat, hold]
      · by_cases ht : t = ""
        · subst ht
          refine ⟨fun _ h => absurd h (by simp), fun h => absurd (List.isEmpty_iff.mpr h) hold, ?_, ?_⟩
          · intro text _ heq hne
            have h0 : "" = text := by simpa using heq
            exact absurd h0.symm hne
          · intro _ _
            simp [summarizeChat, hold]
        · have hrun : summarizeChat (Except.ok (some t)) st chatId = setSummary st chatId t := by
            simp [summarizeChat, hold, ht]
          refine ⟨fun _ h => absurd h (by simp), fun h => absurd (List.isEmpty_iff.mpr h) hold, ?_, ?_⟩
          · intro text _ heq _
            have htt : text = t := by simpa using heq.symm
            subst htt
            rw [hrun]
            simp [setSummary]
          · intro _ h
            rcases h with h | h
            · exact absurd h (by simp)
            · have h0 : t = "" := by simpa using h
              exact absurd h0 ht

/-- A concrete chat-log state for chat 1: 21 buffered entries (so one
entry is older than the recent window) and a summarization counter of
10. -/
def chatLogState21 : ChatLogState :=
  { logs := fun c => if c = 1 then List.replicate 21 logEntryA else []
    counters := fun c => if c = 1 then 10 else 0
    summaries := fun _ => none
    chatTitles := fun _ => none }

/-- Counterexample to C4 as stated: an LLM call that succeeds but whose
first choice carries empty content leaves the counter at its prior value
10 instead of resetting it to zero. -/
theorem summarizeChat_success_empty_keeps_counter :
    (summarizeChat (Except.ok (some "")) chatLogState21 1).counters 1 ≠ 0 := by
  decide

/-- Witness for C4 (amended) at a concrete input: a failing LLM call on
the state with counter 10 resets the counter to zero. -/
theorem summarizeChat_counter_reset_witness :
    (summarizeChat (Except.error "boom") chatLogState21 1).counters 1 = 0 :=
  (summarizeChat_counter_reset (Except.error "boom") chatLogState21 1).1 "boom" rfl

/-! ### chatConfig.ts and configCommand.ts -/

/-- Embedding of the `ChatApiConfig` interface (chatConfig.ts); both
fields are optional in the source. -/
structure ChatApiConfig where
  apiKey : Option String
  baseUrl : Option String
deriving DecidableEq, Repr

/-- Embedding of the `WizardState` union type of configCommand.ts
(`"api_key" | "base_url"`). -/
inductive WizardState where
  | api_key
  | base_url
deriving DecidableEq, Repr

/-- Combined state of the two module-level maps touched by the wizard:
`wizardState` (configCommand.ts) and the chat-config `store`
(chatConfig.ts). -/
structure ConfigState where
  wizardState : Int → Option WizardState
  chatConfigs : Int → Option ChatApiConfig

/-- Embedding of `getChatConfig` (chatConfig.ts): `store.get(chatId) ?? {}`
where the empty object has both fields absent. -/
def getChatConfig (st : ConfigState) (chatId : Int) : ChatApiConfig :=
  (st.chatConfigs chatId).getD ⟨none, none⟩

/-- Embedding of `setChatApiKey` (chatConfig.ts). -/
def setChatApiKey (st : ConfigState) (chatId : Int) (apiKey : String) : ConfigState :=
  let cfg := (st.chatConfigs chatId).getD ⟨none, none⟩
  { st with chatConfigs := fun c =>
      if c = chatId then some { cfg with apiKey := some apiKey } else st.chatConfigs c }

/-- Embedding of `setChatBaseUrl` (chatConfig.ts). -/
def setChatBaseUrl (st : ConfigState) (chatId : Int) (baseUrl : String) : ConfigState :=
  let cfg := (st.chatConfigs chatId).getD ⟨none, none⟩
  { st with chatConfigs := fun c =>
      if c = chatId then some { cfg with baseUrl := some baseUrl } else st.chatConfigs c }

/-- Model of the JS builtin `String.prototype.trim`: drop whitespace
from both ends.  (Lean's own `String.trim` is extensionally the same but
is defined by well-founded recursion on byte positions, which the kernel
cannot evaluate, so the model recurses structurally on the character
list.) -/
def jsTrim (s : String) : String :=
  ⟨((s.data.dropWhile Char.isWhitespace).reverse.dropWhile Char.isWhitespace).reverse⟩

/-- Embedding of `handleWizardInput` (configCommand.ts).  `chatId` is
`ctx.chat?.id` (with JS falsiness: `undefined` and `0` both fail the
`if (!chatId)` guard); `text` is `ctx.message?.text`, trimmed before the
`if (!text)` truthiness check, so `none` and whitespace-only both just
cancel the wizard.  The `setChatApiKey` call is issued without `await`,
but its `Map` mutation is synchronous, so its state effect is applied
here; `buildPanel`/`ctx.reply` have no model-visible state effects. -/
def handleWizardInput (st : ConfigState) (chatId : Option Int) (text : Option String) :
    Bool × ConfigState :=
  match chatId with
  | none => (false, st)
  | some c =>
    if c = 0 then (false, st)
    else
      match st.wizardState c with
      | none => (false, st)
      | some state =>
        match text.map jsTrim with
        | none =>
            (true, { st with wizardState := fun k => if k = c then none else st.wizardState k })
        | some t =>
            if t = "" then
              (true, { st with wizardState := fun k => if k = c then none else st.wizardState k })
            else
              let st1 : ConfigState :=
                { st with wizardState := fun k => if k = c then none else st.wizardState k }
              match state with
              | .api_key => (true, setChatApiKey st1 c t)
              | .base_url => (true, setChatBaseUrl st1 c t)

/-! ## Claim C9 : wizard input consumption -/

/-- C9 (amended): a text message sent while the chat is in an awaiting
wizard state is consumed (handled = true) with its surrounding
whitespace trimmed — not verbatim — as the new API key or base URL,
visible through `getChatConfig`; the wizard state is cleared, so any
subsequent message from that chat is not intercepted and leaves the
state unchanged. -/
theorem handleWizardInput_consumes_trimmed (st : ConfigState) (c : Int)
    (state : WizardState) (text : String) (hc : ¬ c = 0)
    (hw : st.wizardState c = some state) (ht : ¬ jsTrim text = "") :
    (handleWizardInput st (some c) (some text)).fst = true ∧
    (state = WizardState.api_key →
      (getChatConfig (handleWizardInput st (some c) (some text)).snd c).apiKey =
        some (jsTrim text)) ∧
    (state = WizardState.base_url →
      (getChatConfig (handleWizardInput st (some c) (some text)).snd c).baseUrl =
        some (jsTrim text)) ∧
    ((handleWizardInput st (some c) (some text)).snd).wizardState c = none ∧
    (∀ text2 : Option String,
      handleWizardInput (handleWizardInput st (some c) (some text)).snd (some c) text2 =
        (false, (handleWizardInput st (some c) (some text)).snd)) := by
  rcases state with _ | _
  · have hrun : handleWizardInput st (some c) (some text) =
        (true, setChatApiKey
          { st with wizardState := fun k => if k = c then none else st.wizardState k }
          c (jsTrim text)) := by
      simp only [handleWizardInput, Option.map_some', hw, if_neg hc, if_neg ht]
    rw [hrun]
    refine ⟨rfl, ?_, ?_, ?_, ?_⟩
    · intro _
      simp [getChatConfig, setChatApiKey]
    · intro h
      cases h
    · simp [setChatApiKey]
    · intro text2
      simp only [handleWizardInput, setChatApiKey, if_neg hc]
      simp
  · have hrun : handleWizardInput st (some c) (some text) =
        (true, setChatBaseUrl
          { st with wizardState := fun k => if k = c then none else st.wizardState k }
          c (jsTrim text)) := by
      simp only [handleWizardInput, Option.map_some', hw, if_neg hc, if_neg ht]
    rw [hrun]
    refine ⟨rfl, ?_, ?_, ?_, ?_⟩
    · intro h
      cases h
    · intro _
      simp [getChatConfig, setChatBaseUrl]
    · simp [setChatBaseUrl]
    · intro text2
      simp only [handleWizardInput, setChatBaseUrl, if_neg hc]
      simp

/-- A concrete wizard state: chat 1 is awaiting an API key and has no
stored config. -/
def wizardStateC9 : ConfigState :=
  { wizardState := fun c => if c = 1 then some WizardState.api_key else none
    chatConfigs := fun _ => none }

/-- Counterexample to C9 as stated: a message carrying surrounding
whitespace is not stored verbatim — the stored API key is the trimmed
text, which differs from the message text. -/
theorem handleWizardInput_not_verbatim :
    (getChatConfig (handleWizardInput wizardStateC9 (some 1)
        (some " sk-test-123 ")).snd 1).apiKey ≠ some " sk-test-123 " := by
  decide

/-- Witness for C9 (amended) at the spec's own concrete scenario:
sending "sk-test-123" while awaiting an API key consumes the message and
clears the wizard state. -/
theorem handleWizardInput_consumes_trimmed_witness :
    (handleWizardInput wizardStateC9 (some 1) (some "sk-test-123")).fst = true ∧
    ((handleWizardInput wizardStateC9 (some 1) (some "sk-test-123")).snd).wizardState 1 =
      none :=
  ⟨(handleWizardInput_consumes_trimmed wizardStateC9 1 WizardState.api_key "sk-test-123"
      (by decide) rfl (by decide)).1,
   (handleWizardInput_consumes_trimmed wizardStateC9 1 WizardState.api_key "sk-test-123"
      (by decide) rfl (by decide)).2.2.2.1⟩

/-! ### memory.ts : the Memory Store -/

/-- Embedding of the `MemoryEntry` interface (memory.ts). -/
structure MemoryEntry where
  id : String
  content : String
  createdAt : String
deriving DecidableEq, Repr

/-- The module-level `store` map of memory.ts as a total function.  The
accessors treat an absent chat and an empty entry list alike, exactly as
`store.get(chatId) ?? []`, the `if (!store.has(chatId)) store.set(chatId, [])`
initialisation and the `if (!entries) return false` guard do. -/
abbrev MemStore := Int → List MemoryEntry

/-- Embedding of `getMemories` (memory.ts). -/
def getMemories (store : MemStore) (chatId : Int) : List MemoryEntry :=
  store chatId

/-- Embedding of `addMemory` (memory.ts).  `generateId()` and
`new Date().toISOString()` are nondeterministic environment inputs, so
the generated `newId` and `createdAt` are parameters; the function
returns the new entry together with the updated store, mirroring the
push onto the chat's entry list. -/
def addMemory (store : MemStore) (chatId : Int) (content : String)
    (newId createdAt : String) : MemoryEntry × MemStore :=
  let entry : MemoryEntry := { id := newId, content := content, createdAt := createdAt }
  (entry, fun c => if c = chatId then store chatId ++ [entry] else store c)

/-- Embedding of `deleteMemory` (memory.ts): `findIndex` of the first
entry with the given id, then `splice(idx, 1)`; `false` and an unchanged
store when no entry matches. -/
def deleteMemory (store : MemStore) (chatId : Int) (id : String) : Bool × MemStore :=
  let entries := store chatId
  match entries.findIdx? (fun e => e.id = id) with
  | none => (false, store)
  | some idx =>
      (true, fun c =>
        if c = chatId then entries.take idx ++ entries.drop (idx + 1) else store c)

/-! ### A model of the JS builtin JSON.parse

`executeMemoryTool` starts with `JSON.parse(toolCall.function.arguments)`,
which throws a SyntaxError on malformed input.  The model below covers
the fragment relevant to the memory tools — flat objects with
escape-free string values — and rejects everything malformed; theorems
quantifying over the parser take it as an abstract parameter, and the
model is used at concrete inputs where it agrees with the builtin. -/

def jsonSkipWs : List Char → List Char
  | [] => []
  | c :: rest =>
    if c = ' ' ∨ c = '\t' ∨ c = '\n' ∨ c = '\r' then jsonSkipWs rest else c :: rest

/-- Parse the body of a JSON string literal after its opening quote,
returning the string and the input after the closing quote. -/
def jsonStringBody : List Char → Option (String × List Char)
  | [] => none
  | c :: rest =>
    if c = '"' then some ("", rest)
    else if c = '\\' then none
    else
      match jsonStringBody rest with
      | some (s, r) => some (⟨c :: s.data⟩, r)
      | none => none

/-- Parse comma-separated `"key": "value"` members up to and including
the closing brace; the fuel bounds the number of members. -/
def jsonMembers : Nat → List Char → Option (List (String × String) × List Char)
  | 0, _ => none
  | fuel + 1, cs =>
    match jsonSkipWs cs with
    | '"' :: rest =>
      match jsonStringBody rest with
      | some (key, r1) =>
        match jsonSkipWs r1 with
        | ':' :: r2 =>
          match jsonSkipWs r2 with
          | '"' :: r3 =>
            match jsonStringBody r3 with
            | some (value, r4) =>
              match jsonSkipWs r4 with
              | ',' :: r5 =>
                match jsonMembers fuel r5 with
                | some (pairs, r6) => some ((key, value) :: pairs, r6)
                | none => none
              | '\x7d' :: r5 => some ([(key, value)], r5)
              | _ => none
            | none => none
          | _ => none
        | _ => none
      | none => none
    | _ => none

/-- The two properties of the parsed arguments object that the memory
tools read (`args.content`, `args.memory_id`); `none` is the JS
`undefined` of an absent property. -/
structure ToolArgs where
  content : Option String
  memory_id : Option String
deriving DecidableEq, Repr

def lookupField (key : String) : List (String × String) → Option String
  | [] => none
  | (k, v) :: rest => if k = key then some v else lookupField key rest

/-- The JSON.parse model on tool arguments: a flat string-valued object
yields its `content` / `memory_id` properties, anything malformed yields
`.error` (the thrown SyntaxError). -/
def jsonParse (s : String) : Except String ToolArgs :=
  match jsonSkipWs s.data with
  | '\x7b' :: rest =>
    match jsonSkipWs rest with
    | '\x7d' :: r1 =>
        if (jsonSkipWs r1).isEmpty then .ok { content := none, memory_id := none }
        else .error "SyntaxError: Unexpected token in JSON"
    | _ =>
      match jsonMembers (s.length + 1) rest with
      | some (pairs, r1) =>
          if (jsonSkipWs r1).isEmpty then
            .ok { content := lookupField "content" pairs
                  memory_id := lookupField "memory_id" pairs }
          else .error "SyntaxError: Unexpected token in JSON"
      | none => .error "SyntaxError: Unexpected token in JSON"
  | _ => .error "SyntaxError: Unexpected end of JSON input"

/-! ### index.ts / memory.ts : the tool-calling loop -/

structure FnCall where
  name : String
  arguments : String
deriving DecidableEq, Repr

/-- A tool call as delivered by the Chat Completions API; `ttype` is its
`type` field, checked against "function" by the loop. -/
structure ToolCall where
  id : String
  ttype : String
  function : FnCall
deriving DecidableEq, Repr

structure RespMessage where
  content : Option String
  tool_calls : List ToolCall
deriving DecidableEq, Repr

structure Choice where
  message : RespMessage
deriving DecidableEq, Repr

structure Completion where
  choices : List Choice
deriving DecidableEq, Repr

/-- Embedding of `executeMemoryTool` (memory.ts).  `JSON.parse` is the
explicit `parse` parameter (`jsonParse` is its concrete model); its
failure is an uncaught exception, hence `.error`.  The `switch` on the
tool name becomes equality tests.  When the parsed object lacks the
property a tool reads, JS passes `undefined` through; the model uses
`""` for that value (no theorem depends on it). -/
def executeMemoryTool (parse : String → Except String ToolArgs)
    (newId createdAt : String) (chatId : Int) (toolCall : ToolCall)
    (store : MemStore) : Except String (String × MemStore) :=
  match parse toolCall.function.arguments with
  | .error e => .error e
  | .ok args =>
    if toolCall.function.name = "save_memory" then
      let r := addMemory store chatId (args.content.getD "") newId createdAt
      .ok ("Memory saved with ID " ++ r.fst.id ++ ".", r.snd)
    else if toolCall.function.name = "delete_memory" then
      let mid := args.memory_id.getD ""
      let r := deleteMemory store chatId mid
      .ok (if r.fst then ("Memory " ++ mid ++ " deleted.", r.snd)
           else ("Memory " ++ mid ++ " not found.", r.snd))
    else .ok ("Unknown tool: " ++ toolCall.function.name, store)

/-- Transcript messages appended by the tool loop: the assistant message
carrying tool calls and one `role:"tool"` result per executed call; the
initial system/user context entries are opaque. -/
inductive TranscriptMsg where
  | ctxMsg (tag : Nat)
  | assistant (m : RespMessage)
  | tool (tool_call_id : String) (content : String)
deriving DecidableEq, Repr

/-- The `for (const tc of choice.message.tool_calls)` body of `chat()`
(index.ts): non-function calls are skipped (`continue`), the rest are
executed in order, each appending a tool-result message; an execution
error aborts the iteration (the JS exception propagates).  `fresh k` is
the id `generateId()` produces for the k-th executed call of the
round. -/
def execToolCalls (parse : String → Except String ToolArgs) (fresh : Nat → String)
    (createdAt : String) (chatId : Int) :
    Nat → List ToolCall → List TranscriptMsg → MemStore →
      Except String (List TranscriptMsg × MemStore)
  | _, [], msgs, store => .ok (msgs, store)
  | k, tc :: rest, msgs, store =>
    if tc.ttype ≠ "function" then
      execToolCalls parse fresh createdAt chatId k rest msgs store
    else
      match executeMemoryTool parse (fresh k) createdAt chatId tc store with
      | .error e => .error e
      | .ok (result, store1) =>
          execToolCalls parse fresh createdAt chatId (k + 1) rest
            (msgs ++ [TranscriptMsg.tool tc.id result]) store1

/-- The `while (iterations <= 5)` loop of `chat()` (index.ts).
`backend i` is the final completion of the request issued with
`iterations = i`; the `Nat` in the result counts the requests issued.
An empty `choices` array and missing `tool_calls` both take the terminal
branch (`!choice?.message?.tool_calls?.length`) returning
`content || ""`.  A thrown tool-execution error (`.error`) aborts the
loop as an uncaught JS exception does.  The loop body only runs while
`i ≤ 5`, so the structural fuel — 7 at entry — never runs out on a
reachable state; the fuel-exhausted branch repeats the loop-exit
result. -/
def chatLoopGo (parse : String → Except String ToolArgs) (fresh : Nat → Nat → String)
    (createdAt : String) (backend : Nat → Completion) (chatId : Int) :
    Nat → Nat → List TranscriptMsg → MemStore →
      Except String String × Nat × List TranscriptMsg × MemStore
  | 0, i, msgs, store => (.ok "", i, msgs, store)
  | fuel + 1, i, msgs, store =>
    if i ≤ 5 then
      match (backend i).choices.head? with
      | none => (.ok "", i + 1, msgs, store)
      | some choice =>
        if choice.message.tool_calls.isEmpty then
          (.ok (choice.message.content.getD ""), i + 1, msgs, store)
        else
          match execToolCalls parse (fresh i) createdAt chatId 0
              choice.message.tool_calls
              (msgs ++ [TranscriptMsg.assistant choice.message]) store with
          | .error e =>
              (.error e, i + 1, msgs ++ [TranscriptMsg.assistant choice.message], store)
          | .ok (msgs1, store1) =>
              chatLoopGo parse fresh createdAt backend chatId fuel (i + 1) msgs1 store1
    else (.ok "", i, msgs, store)

/-- Entry point of the loop in `chat()`: `iterations = 0`. -/
def chatLoop (parse : String → Except String ToolArgs) (fresh : Nat → Nat → String)
    (createdAt : String) (backend : Nat → Completion) (chatId : Int)
    (msgs : List TranscriptMsg) (store : MemStore) :
    Except String String × Nat × List TranscriptMsg × MemStore :=
  chatLoopGo parse fresh createdAt backend chatId 7 0 msgs store

/-- Helper: `executeMemoryTool` succeeds whenever the argument string
parses, whatever the tool name. -/
theorem executeMemoryTool_ok (parse : String → Except String ToolArgs)
    (newId createdAt : String) (chatId : Int) (tc : ToolCall) (store : MemStore)
    (args : ToolArgs) (hargs : parse tc.function.arguments = .ok args) :
    ∃ out, executeMemoryTool parse newId createdAt chatId tc store = .ok out := by
  simp only [executeMemoryTool, hargs]
  by_cases h1 : tc.function.name = "save_memory"
  · rw [if_pos h1]
    exact ⟨_, rfl⟩
  · rw [if_neg h1]
    by_cases h2 : tc.function.name = "delete_memory"
    · rw [if_pos h2]
      exact ⟨_, rfl⟩
    · rw [if_neg h2]
      exact ⟨_, rfl⟩

/-- Helper: when every function-type tool call of the round has
parseable arguments, the round succeeds and appends exactly a block of
tool-result messages to the transcript. -/
theorem execToolCalls_ok (parse : String → Except String ToolArgs)
    (fresh : Nat → String) (createdAt : String) (chatId : Int) :
    ∀ (tcs : List ToolCall) (k : Nat) (msgs : List TranscriptMsg) (store : MemStore),
      (∀ tc ∈ tcs, tc.ttype = "function" →
        ∃ args, parse tc.function.arguments = .ok args) →
      ∃ results store1,
        execToolCalls parse fresh createdAt chatId k tcs msgs store =
          .ok (msgs ++ results, store1) ∧
        ∀ m ∈ results, ∃ tid text, m = TranscriptMsg.tool tid text := by
  intro tcs
  induction tcs with
  | nil =>
    intro k msgs store _
    exact ⟨[], store, by simp [execToolCalls], by simp⟩
  | cons tc rest ih =>
    intro k msgs store h
    by_cases hty : tc.ttype = "function"
    · obtain ⟨args, hargs⟩ := h tc (by simp) hty
      obtain ⟨⟨res, store1⟩, hout⟩ :=
        executeMemoryTool_ok parse (fresh k) createdAt chatId tc store args hargs
      obtain ⟨results, store2, hrec, htool⟩ :=
        ih (k + 1) (msgs ++ [TranscriptMsg.tool tc.id res]) store1
          (fun t ht hty2 => h t (by simp [ht]) hty2)
      refine ⟨TranscriptMsg.tool tc.id res :: results, store2, ?_, ?_⟩
      · simp only [execToolCalls, if_neg (not_not_intro hty), hout, hrec]
        simp
      · intro m hm
        rcases List.mem_cons.mp hm with hm | hm
        · exact ⟨tc.id, res, hm⟩
        · exact htool m hm
    · obtain ⟨results, store1, hrec, htool⟩ :=
        ih k msgs store (fun t ht hty2 => h t (by simp [ht]) hty2)
      refine ⟨results, store1, ?_, htool⟩
      simp only [execToolCalls, if_pos hty, hrec]

/-- Helper: the loop never issues more than 6 requests (the first plus
at most 5 tool-call round-trips), whatever the backend does. -/
theorem chatLoopGo_requests_le (parse : String → Except String ToolArgs)
    (fresh : Nat → Nat → String) (createdAt : String) (backend : Nat → Completion)
    (chatId : Int) :
    ∀ (fuel : Nat) (i : Nat) (msgs : List TranscriptMsg) (store : MemStore), i ≤ 6 →
      (chatLoopGo parse fresh createdAt backend chatId fuel i msgs store).2.1 ≤ 6 := by
  intro fuel
  induction fuel with
  | zero =>
    intro i msgs store hi
    simpa [chatLoopGo] using hi
  | succ fuel ih =>
    intro i msgs store hi
    by_cases h5 : i ≤ 5
    · simp only [chatLoopGo, if_pos h5]
      cases hh : (backend i).choices.head? with
      | none => simp; omega
      | some choice =>
        by_cases hempty : choice.message.tool_calls.isEmpty
        · simp [hempty]
          omega
        · simp only [hempty, Bool.false_eq_true, if_neg (by simpa using hempty)]
          cases hexec : execToolCalls parse (fresh i) createdAt chatId 0
              choice.message.tool_calls
              (msgs ++ [TranscriptMsg.assistant choice.message]) store with
          | error e => simp; omega
          | ok out =>
            obtain ⟨msgs1, store1⟩ := out
            exact ih (i + 1) msgs1 store1 (by omega)
    · simp only [chatLoopGo, if_neg h5]
      exact hi

/-- Helper: with a backend that answers every request with executable
tool calls, the loop runs all its iterations and returns the empty
string after exactly 6 requests. -/
theorem chatLoopGo_all_tools (parse : String → Except String ToolArgs)
    (fresh : Nat → Nat → String) (createdAt : String) (backend : Nat → Completion)
    (chatId : Int)
    (hb : ∀ i, i ≤ 5 → ∃ choice, (backend i).choices.head? = some choice ∧
        choice.message.tool_calls ≠ [] ∧
        ∀ tc ∈ choice.message.tool_calls, tc.ttype = "function" →
          ∃ args, parse tc.function.arguments = .ok args) :
    ∀ (fuel : Nat) (i : Nat) (msgs : List TranscriptMsg) (store : MemStore),
      i + fuel = 7 → i ≤ 6 →
      (chatLoopGo parse fresh createdAt backend chatId fuel i msgs store).1 = .ok "" ∧
      (chatLoopGo parse fresh createdAt backend chatId fuel i msgs store).2.1 = 6 := by
  intro fuel
  induction fuel with
  | zero =>
    intro i msgs store hif hi
    omega
  | succ fuel ih =>
    intro i msgs store hif hi
    by_cases h5 : i ≤ 5
    · obtain ⟨choice, hhead, hne, hok⟩ := hb i h5
      obtain ⟨results, store1, hrec, _⟩ :=
        execToolCalls_ok parse (fresh i) createdAt chatId choice.message.tool_calls 0
          (msgs ++ [TranscriptMsg.assistant choice.message]) store hok
      have hempty : ¬ choice.message.tool_calls.isEmpty = true :=
        fun h => hne (List.isEmpty_iff.mp h)
      simp only [chatLoopGo, if_pos h5, hhead, if_neg hempty, hrec]
      exact ih (i + 1) _ _ (by omega) (by omega)
    · have h6 : i = 6 := by omega
      subst h6
      simp [chatLoopGo]

end Skye

namespace Skye

/-! ## Claim C2 : tool-calling loop termination -/

/-- C2: the tool-calling loop of `chat()` always issues at most 6
requests (the first plus at most 5 tool-call round-trips); and when the
backend answers every request with (executable) tool calls, the loop
issues exactly cap+1 = 6 requests and then returns the empty string. -/
theorem chatLoop_bounded_and_caps_out (parse : String → Except String ToolArgs)
    (fresh : Nat → Nat → String) (createdAt : String) (backend : Nat → Completion)
    (chatId : Int) (msgs : List TranscriptMsg) (store : MemStore) :
    (chatLoop parse fresh createdAt backend chatId msgs store).2.1 ≤ 6 ∧
    ((∀ i, i ≤ 5 → ∃ choice, (backend i).choices.head? = some choice ∧
        choice.message.tool_calls ≠ [] ∧
        ∀ tc ∈ choice.message.tool_calls, tc.ttype = "function" →
          ∃ args, parse tc.function.arguments = .ok args) →
      (chatLoop parse fresh createdAt backend chatId msgs store).1 = .ok "" ∧
      (chatLoop parse fresh createdAt backend chatId msgs store).2.1 = 6) := by
  constructor
  · exact chatLoopGo_requests_le parse fresh createdAt backend chatId 7 0 msgs store
      (by omega)
  · intro hb
    exact chatLoopGo_all_tools parse fresh createdAt backend chatId hb 7 0 msgs store
      (by omega) (by omega)

/-- A concrete scripted backend that always answers with one function
tool call. -/
def toolCallW : ToolCall :=
  { id := "tc1", ttype := "function",
    function := { name := "save_memory", arguments := "ignored" } }

def choiceW : Choice :=
  { message := { content := none, tool_calls := [toolCallW] } }

def backendW : Nat → Completion := fun _ => { choices := [choiceW] }

def parseTrivial : String → Except String ToolArgs :=
  fun _ => .ok { content := none, memory_id := none }

/-- Witness for C2: against the always-tool-calls backend the loop
returns the empty string after exactly 6 requests. -/
theorem chatLoop_bounded_and_caps_out_witness :
    (chatLoop parseTrivial (fun _ _ => "mem_1") "t0" backendW 1 [] (fun _ => [])).1 =
      .ok "" ∧
    (chatLoop parseTrivial (fun _ _ => "mem_1") "t0" backendW 1 [] (fun _ => [])).2.1 = 6 :=
  (chatLoop_bounded_and_caps_out parseTrivial (fun _ _ => "mem_1") "t0" backendW 1 []
      (fun _ => [])).2
    (fun _ _ => ⟨choiceW, rfl, by simp [choiceW], fun _ _ _ =>
      ⟨{ content := none, memory_id := none }, rfl⟩⟩)

/-! ## Claim C5 : tool-call execution -/

/-- C5 (amended): every tool call whose `type` is checked and whose
argument string parses as JSON — whatever the tool name — produces a
textual tool result appended to the transcript, and the round succeeds;
but a tool call whose arguments fail JSON parsing raises an error that
escapes the loop (see the counterexample). -/
theorem execToolCalls_appends_textual_results (parse : String → Except String ToolArgs)
    (fresh : Nat → String) (createdAt : String) (chatId : Int) (tcs : List ToolCall)
    (k : Nat) (msgs : List TranscriptMsg) (store : MemStore)
    (h : ∀ tc ∈ tcs, tc.ttype = "function" →
      ∃ args, parse tc.function.arguments = .ok args) :
    ∃ results store1,
      execToolCalls parse fresh createdAt chatId k tcs msgs store =
        .ok (msgs ++ results, store1) ∧
      ∀ m ∈ results, ∃ tid text, m = TranscriptMsg.tool tid text :=
  execToolCalls_ok parse fresh createdAt chatId tcs k msgs store h

/-- A concrete save-memory tool call with well-formed JSON arguments. -/
def saveToolCallW : ToolCall :=
  { id := "tc9", ttype := "function",
    function := { name := "save_memory",
                  arguments := "\x7b\"content\": \"hello\"\x7d" } }

/-- Witness for C5 (amended): the concrete well-formed call executes to
a tool-result block appended to an empty transcript. -/
theorem execToolCalls_appends_textual_results_witness :
    ∃ results store1,
      execToolCalls jsonParse (fun _ => "mem_w") "t0" 1 0 [saveToolCallW] []
          (fun _ => []) =
        .ok ([] ++ results, store1) ∧
      ∀ m ∈ results, ∃ tid text, m = TranscriptMsg.tool tid text :=
  execToolCalls_appends_textual_results jsonParse (fun _ => "mem_w") "t0" 1
    [saveToolCallW] 0 [] (fun _ => [])
    (fun tc htc _ => by
      rw [List.mem_singleton] at htc
      subst htc
      exact ⟨{ content := some "hello", memory_id := none }, rfl⟩)

/-- A tool call whose arguments are the malformed JSON string "". -/
def badToolCall : ToolCall :=
  { id := "tc2", ttype := "function",
    function := { name := "save_memory", arguments := "" } }

def backendBad : Nat → Completion :=
  fun _ => { choices := [{ message := { content := none, tool_calls := [badToolCall] } }] }

/-- Counterexample to C5 as stated: a model-issued tool call whose
argument string is malformed JSON makes `JSON.parse` throw inside
`executeMemoryTool`, and the error propagates out of the tool-calling
loop instead of becoming a textual tool result. -/
theorem toolCall_error_escapes_loop :
    (chatLoop jsonParse (fun _ _ => "mem_1") "t0" backendBad 1 [] (fun _ => [])).1 =
      .error "SyntaxError: Unexpected end of JSON input" := rfl

/-! ## Claim C1 : the Memory Store tracks add/delete sequences -/

/-- A recorded Memory Store operation: `add` carries the content plus the
id and timestamp the environment supplied to `addMemory`; `del` is a
`deleteMemory` call with its target id. -/
inductive MemOp where
  | add (chatId : Int) (content : String) (newId createdAt : String)
  | del (chatId : Int) (id : String)
deriving DecidableEq, Repr

/-- Run a sequence of Memory Store operations from a given store. -/
def runMemOps : MemStore → List MemOp → MemStore
  | s, [] => s
  | s, MemOp.add c content i t :: rest => runMemOps (addMemory s c content i t).snd rest
  | s, MemOp.del c i :: rest => runMemOps (deleteMemory s c i).snd rest

/-- Specification side, from the spec's words: an entry of chat `c` with
this id is "subsequently deleted" when a later operation is a delete for
that chat and id. -/
def deletedLater (c : Int) (id : String) : List MemOp → Bool
  | [] => false
  | MemOp.del c1 i :: rest => (c1 = c ∧ i = id) || deletedLater c id rest
  | MemOp.add _ _ _ _ :: rest => deletedLater c id rest

/-- Specification side, from the spec's words: the entries that were
added for chat `c` and not subsequently deleted, in the order they were
added. -/
def survivingEntries (c : Int) : List MemOp → List MemoryEntry
  | [] => []
  | MemOp.add c1 content i t :: rest =>
      if c1 = c ∧ ¬ deletedLater c i rest then
        { id := i, content := content, createdAt := t } :: survivingEntries c rest
      else survivingEntries c rest
  | MemOp.del _ _ :: rest => survivingEntries c rest

/-- The ids the operation sequence adds for chat `c`, in order. -/
def addedIds (c : Int) : List MemOp → List String
  | [] => []
  | MemOp.add c1 _ i _ :: rest => if c1 = c then i :: addedIds c rest else addedIds c rest
  | MemOp.del _ _ :: rest => addedIds c rest

/-- Helper: under unique ids, removing the first entry matching an id
(`findIndex` + `splice(idx, 1)`) is filtering that id out. -/
theorem splice_first_eq_filter (id : String) :
    ∀ l : List MemoryEntry, (l.map MemoryEntry.id).Nodup →
      (match l.findIdx? (fun e => e.id = id) with
       | none => l
       | some idx => l.take idx ++ l.drop (idx + 1)) =
      l.filter (fun e => ¬ e.id = id) := by
  intro l
  induction l with
  | nil => intro _; simp
  | cons a l ih =>
    intro h
    have h1 : a.id ∉ l.map MemoryEntry.id := (List.nodup_cons.mp h).1
    have h2 : (l.map MemoryEntry.id).Nodup := (List.nodup_cons.mp h).2
    by_cases ha : a.id = id
    · rw [List.findIdx?_cons, if_pos (by simpa using ha)]
      simp only [List.take_zero, List.drop_succ_cons, List.drop_zero, List.nil_append]
      rw [List.filter_cons_of_neg (by simpa using ha)]
      symm
      rw [List.filter_eq_self]
      intro b hb
      simp only [decide_not, Bool.not_eq_true', decide_eq_false_iff_not]
      intro hbid
      apply h1
      have hmem : b.id ∈ l.map MemoryEntry.id := List.mem_map_of_mem _ hb
      rwa [hbid, ← ha] at hmem
    · rw [List.findIdx?_cons, if_neg (by simpa using ha), List.findIdx?_succ]
      rw [List.filter_cons_of_pos (by simpa using ha)]
      cases hf : List.findIdx? (fun e => decide (e.id = id)) l with
      | none =>
        have hrec := ih h2
        rw [hf] at hrec
        simp only [hf, Option.map_none']
        simpa using hrec
      | some j =>
        have hrec := ih h2
        rw [hf] at hrec
        simp only [hf, Option.map_some']
        simp only [List.take_succ_cons, List.drop_succ_cons, List.cons_append]
        simpa using hrec

/-- Helper: under unique ids a delete rewrites the chat's entry list to
the filtered list and leaves every other chat untouched. -/
theorem deleteMemory_snd (s : MemStore) (c : Int) (id : String)
    (h : ((s c).map MemoryEntry.id).Nodup) :
    (deleteMemory s c id).snd c = (s c).filter (fun e => ¬ e.id = id) ∧
    ∀ c2, ¬ c2 = c → (deleteMemory s c id).snd c2 = s c2 := by
  have hsplice := splice_first_eq_filter id (s c) h
  constructor
  · simp only [deleteMemory]
    cases hf : (s c).findIdx? (fun e => e.id = id) with
    | none =>
      rw [hf] at hsplice
      simpa using hsplice
    | some idx =>
      rw [hf] at hsplice
      simpa using hsplice
  · intro c2 hc2
    simp only [deleteMemory]
    cases hf : (s c).findIdx? (fun e => e.id = id) with
    | none => rfl
    | some idx => simp [hc2]

/-- Helper: running an operation sequence from any store leaves, for each
chat, the initial entries no later delete removes, followed by the added
survivors — provided the ids involved for that chat are pairwise
distinct. -/
theorem runMemOps_invariant (c : Int) :
    ∀ (ops : List MemOp) (s : MemStore),
      ((s c).map MemoryEntry.id ++ addedIds c ops).Nodup →
      getMemories (runMemOps s ops) c =
        (s c).filter (fun e => !(deletedLater c e.id ops)) ++ survivingEntries c ops := by
  intro ops
  induction ops with
  | nil =>
    intro s h
    simp [getMemories, runMemOps, deletedLater, survivingEntries]
  | cons op rest ih =>
    intro s h
    cases op with
    | add c1 content i t =>
      by_cases hc : c1 = c
      · subst hc
        have hs1 : (addMemory s c1 content i t).snd c1 =
            s c1 ++ [⟨i, content, t⟩] := by
          simp [addMemory]
        have hid : addedIds c1 (MemOp.add c1 content i t :: rest) =
            i :: addedIds c1 rest := by
          simp [addedIds]
        rw [hid] at h
        have h' : (((addMemory s c1 content i t).snd c1).map MemoryEntry.id ++
            addedIds c1 rest).Nodup := by
          rw [hs1]
          simpa [List.append_assoc] using h
        have hIH := ih _ h'
        simp only [runMemOps]
        rw [hIH, hs1]
        simp only [deletedLater, survivingEntries]
        rw [List.filter_append]
        by_cases hdli : deletedLater c1 i rest = true
        · rw [if_neg (by simp [hdli])]
          have hone : List.filter (fun e => !(deletedLater c1 e.id rest))
              [(⟨i, content, t⟩ : MemoryEntry)] = [] := by
            simp [hdli]
          rw [hone, List.append_nil]
        · have hfalse : deletedLater c1 i rest = false := Bool.eq_false_iff.mpr hdli
          rw [if_pos (by simp [hfalse])]
          have hone : List.filter (fun e => !(deletedLater c1 e.id rest))
              [(⟨i, content, t⟩ : MemoryEntry)] = [⟨i, content, t⟩] := by
            simp [hfalse]
          rw [hone, List.append_assoc]
          rfl
      · have hs1 : (addMemory s c1 content i t).snd c = s c := by
          simp only [addMemory]
          rw [if_neg (fun hh => hc hh.symm)]
        have hid : addedIds c (MemOp.add c1 content i t :: rest) = addedIds c rest := by
          simp [addedIds, hc]
        rw [hid] at h
        have h' : (((addMemory s c1 content i t).snd c).map MemoryEntry.id ++
            addedIds c rest).Nodup := by
          rw [hs1]; exact h
        have hIH := ih _ h'
        simp only [runMemOps]
        rw [hIH, hs1]
        simp only [deletedLater]
        have hsurv : survivingEntries c (MemOp.add c1 content i t :: rest) =
            survivingEntries c rest := by
          simp [survivingEntries, hc]
        rw [hsurv]
    | del c1 i =>
      by_cases hc : c1 = c
      · subst hc
        have hnodup : ((s c1).map MemoryEntry.id).Nodup := (List.nodup_append.mp h).1
        obtain ⟨hdelc, _⟩ := deleteMemory_snd s c1 i hnodup
        have hid : addedIds c1 (MemOp.del c1 i :: rest) = addedIds c1 rest := rfl
        rw [hid] at h
        have h' : (((deleteMemory s c1 i).snd c1).map MemoryEntry.id ++
            addedIds c1 rest).Nodup := by
          rw [hdelc]
          refine List.Nodup.sublist ?_ h
          exact List.Sublist.append (List.Sublist.map _ (List.filter_sublist _))
            (List.Sublist.refl _)
        have hIH := ih _ h'
        simp only [runMemOps]
        rw [hIH, hdelc, List.filter_filter]
        have hsurv : survivingEntries c1 (MemOp.del c1 i :: rest) =
            survivingEntries c1 rest := rfl
        rw [hsurv]
        congr 1
        apply List.filter_congr
        intro x _
        simp only [deletedLater]
        by_cases hx : x.id = i
        · simp [hx]
        · simp [hx, Ne.symm hx]
      · have hfr : (deleteMemory s c1 i).snd c = s c := by
          simp only [deleteMemory]
          cases hf : (s c1).findIdx? (fun e => e.id = i) with
          | none => rfl
          | some idx => simp [Ne.symm hc]
        have hid : addedIds c (MemOp.del c1 i :: rest) = addedIds c rest := rfl
        rw [hid] at h
        have h' : (((deleteMemory s c1 i).snd c).map MemoryEntry.id ++
            addedIds c rest).Nodup := by
          rw [hfr]; exact h
        have hIH := ih _ h'
        simp only [runMemOps]
        rw [hIH, hfr]
        have hsurv : survivingEntries c (MemOp.del c1 i :: rest) =
            survivingEntries c rest := rfl
        rw [hsurv]
        congr 1
        apply List.filter_congr
        intro x _
        simp only [deletedLater]
        simp [hc]

end Skye

namespace Skye

/-- C1: starting from the empty store, any sequence of `addMemory` /
`deleteMemory` operations whose generated ids for the observed chat are
distinct (the store's own invariant: "ids unique within a chat") leaves
`getMemories` equal to exactly the entries added and not subsequently
deleted, in insertion order; and `deleteMemory` with an id not present
in the chat returns `false` and leaves the whole store unchanged. -/
theorem memoryStore_tracks_ops :
    (∀ (ops : List MemOp) (c : Int), (addedIds c ops).Nodup →
      getMemories (runMemOps (fun _ => []) ops) c = survivingEntries c ops) ∧
    (∀ (s : MemStore) (c : Int) (id : String),
      (∀ e ∈ getMemories s c, ¬ e.id = id) →
      deleteMemory s c id = (false, s)) := by
  constructor
  · intro ops c hids
    have h := runMemOps_invariant c ops (fun _ => []) (by simpa using hids)
    simpa using h
  · intro s c id h
    have hnone : (s c).findIdx? (fun e => e.id = id) = none := by
      rw [List.findIdx?_eq_none_iff]
      intro x hx
      simpa using h x hx
    simp only [deleteMemory, hnone]

/-- A concrete operation sequence: two adds and one delete on chat 1. -/
def memOpsW : List MemOp :=
  [MemOp.add 1 "likes tea" "mem_a" "t1",
   MemOp.add 1 "owns a cat" "mem_b" "t2",
   MemOp.del 1 "mem_a"]

/-- Witness for C1: after adding two entries and deleting the first,
exactly the second survives; and deleting an absent id returns false and
changes nothing. -/
theorem memoryStore_tracks_ops_witness :
    getMemories (runMemOps (fun _ => []) memOpsW) 1 =
      [{ id := "mem_b", content := "owns a cat", createdAt := "t2" }] ∧
    deleteMemory (runMemOps (fun _ => []) memOpsW) 1 "mem_zz" =
      (false, runMemOps (fun _ => []) memOpsW) := by
  constructor
  · rw [memoryStore_tracks_ops.1 memOpsW 1 (by decide)]
    rfl
  · apply memoryStore_tracks_ops.2
    intro e he
    rw [memoryStore_tracks_ops.1 memOpsW 1 (by decide)] at he
    rcases List.mem_cons.mp he with he2 | he2
    · subst he2
      decide
    · cases he2

end Skye
